import Mathlib

/-!
# cu-thor: output multiplexer, job handles and executor

A shallow embedding of `library/internal/buffer.go`, `library/internal/commands.go`
and `library/pkg/executor/executor.go`, with the properties of the specification
stated over it.

Go values are embedded as follows: `[]byte` is `List Byte`, `string` is `String`,
`int` / `int64` are `Int` with explicit wrap-around where the code multiplies,
`error` is `Option` of an error value (`none` is `nil`), pointers to mutable
structs become explicit state passing, and calls into the host (files, syscalls,
sub-processes) are answered by an environment and recorded in a trace.
-/

namespace CuThor

/-! ## `internal/buffer.go` -/

abbrev Byte := UInt8

/-- The error values a reader can return; `io.EOF` is the only one that occurs. -/
inductive IoError where
  | EOF
  deriving DecidableEq, Repr

/-- The struct `MultiplexingBuffer`. -/
structure MultiplexingBuffer where
  closed : Bool
  buffer : List Byte
  deriving DecidableEq, Repr

/-- The struct `streamingReader`; its pointer field `multiplexingBuffer` is passed
to `Read` as the buffer's current value. -/
structure streamingReader where
  idx : Nat
  drained : Bool
  deriving DecidableEq, Repr

/-- What one `Read(p)` call leaves behind: the reader, the destination slice `p`,
and the returned pair `(n, err)`. -/
structure ReadResult (R : Type) where
  reader : R
  p : List Byte
  n : Nat
  err : Option IoError
  deriving DecidableEq, Repr

/-- The `for i := 0; i < toRead; i++` loop of `streamingReader.Read`, with `rem`
the number of iterations left (`toRead - i`). Leaving the loop normally runs the
two statements after it. -/
def streamingReader.readLoop (m : MultiplexingBuffer) (s : streamingReader) (toRead : Nat) :
    Nat → Nat → List Byte → ReadResult streamingReader
  | 0, _, p => ⟨{ s with idx := s.idx + toRead }, p, toRead, none⟩
  | rem + 1, i, p =>
    if i + s.idx ≥ m.buffer.length then
      ⟨{ idx := s.idx + i, drained := if m.closed then true else s.drained }, p, i, none⟩
    else
      streamingReader.readLoop m s toRead rem (i + 1) (p.set i (m.buffer.getD (s.idx + i) 0))

/-- The method `(s *streamingReader) Read(p []byte) (n int, err error)`. -/
def streamingReader.Read (m : MultiplexingBuffer) (s : streamingReader) (p : List Byte) :
    ReadResult streamingReader :=
  let toRead := p.length
  if s.drained then ⟨s, p, 0, some IoError.EOF⟩
  else streamingReader.readLoop m s toRead toRead 0 p

/-- The reader `bytes.NewReader(b)` of Go's standard library: the slice it was
made from and its read position. -/
structure bytesReader where
  s : List Byte
  i : Nat
  deriving DecidableEq, Repr

/-- The method `(*bytes.Reader).Read` of Go's standard library: end-of-stream once
the position has reached the end, else `copy(b, r.s[r.i:])` and advance. -/
def bytesReader.Read (r : bytesReader) (b : List Byte) : ReadResult bytesReader :=
  if r.i ≥ r.s.length then ⟨r, b, 0, some IoError.EOF⟩
  else
    let n := min b.length (r.s.length - r.i)
    ⟨{ r with i := r.i + n }, ((r.s.drop r.i).take n) ++ b.drop n, n, none⟩

/-- The `io.Reader` values that `MultiplexingBuffer.Reader` returns. -/
inductive Reader where
  | streaming (s : streamingReader)
  | snapshot (r : bytesReader)
  deriving DecidableEq, Repr

/-- The method `(m *MultiplexingBuffer) Reader() io.Reader`. -/
def MultiplexingBuffer.Reader (m : MultiplexingBuffer) : Reader :=
  if m.closed then Reader.snapshot ⟨m.buffer, 0⟩
  else Reader.streaming { idx := 0, drained := false }

/-- The method `(m *MultiplexingBuffer) Close() error`; the error is always `nil`. -/
def MultiplexingBuffer.Close (m : MultiplexingBuffer) : MultiplexingBuffer × Option IoError :=
  ({ m with closed := true }, none)

/-- The method `(m *MultiplexingBuffer) Write(p []byte) (n int, err error)`. -/
def MultiplexingBuffer.Write (m : MultiplexingBuffer) (p : List Byte) :
    MultiplexingBuffer × Nat × Option IoError :=
  ({ m with buffer := m.buffer ++ p }, p.length, none)

/-- Dispatch of `Read` through the `io.Reader` interface. -/
def Reader.Read (m : MultiplexingBuffer) : Reader → List Byte → ReadResult Reader
  | Reader.streaming s, p =>
    let r := s.Read m p
    ⟨Reader.streaming r.reader, r.p, r.n, r.err⟩
  | Reader.snapshot b, p =>
    let r := b.Read p
    ⟨Reader.snapshot r.reader, r.p, r.n, r.err⟩

/-! ### A buffer with its readers

One buffer, the readers handed out so far, and for each reader what its caller has
received: the bytes `p[:n]` of every `Read`, in order, and whether `io.EOF` was
returned. Operations are atomic and interleave in any order. -/

/-- A reader together with what it has delivered over its lifetime. -/
structure ReaderLog where
  reader : Reader
  out : List Byte
  eof : Bool
  deriving DecidableEq, Repr

/-- One buffer and the readers created from it. -/
structure Sys where
  m : MultiplexingBuffer
  readers : List ReaderLog
  deriving DecidableEq, Repr

/-- The operations a client can perform. `read k p` is a `Read(p)` on the `k`-th
reader that was created. -/
inductive Op where
  | write (p : List Byte)
  | newReader
  | read (k : Nat) (p : List Byte)
  | close
  deriving DecidableEq, Repr

/-- A fresh `MultiplexingBuffer{}` with no readers. -/
def Sys.fresh : Sys := ⟨⟨false, []⟩, []⟩

/-- One `Read(p)` on a logged reader: the returned bytes `p[:n]` are appended. -/
def ReaderLog.read (m : MultiplexingBuffer) (l : ReaderLog) (p : List Byte) : ReaderLog :=
  let r := l.reader.Read m p
  { reader := r.reader, out := l.out ++ r.p.take r.n,
    eof := l.eof || decide (r.err = some IoError.EOF) }

/-- The effect of one operation. -/
def Sys.step (s : Sys) : Op → Sys
  | Op.write p => { s with m := (s.m.Write p).1 }
  | Op.newReader => { s with readers := s.readers ++ [⟨s.m.Reader, [], false⟩] }
  | Op.read k p =>
    match s.readers[k]? with
    | none => s
    | some l => { s with readers := s.readers.set k (l.read s.m p) }
  | Op.close => { s with m := s.m.Close.1 }

/-- The effect of a sequence of operations. -/
def Sys.run (s : Sys) (ops : List Op) : Sys := ops.foldl Sys.step s

/-- All bytes written by a sequence of operations, in write order. -/
def written : List Op → List Byte
  | [] => []
  | Op.write p :: ops => p ++ written ops
  | _ :: ops => written ops

/-- The first `n` reads of reader `k` with the destination slices `dests 0`,
`dests 1`, ... -/
def readsOf (k : Nat) (dests : Nat → List Byte) : Nat → List Op
  | 0 => []
  | n + 1 => Op.read k (dests 0) :: readsOf k (fun j => dests (j + 1)) n

/-- An operation allowed while the buffer is open: anything but `Close`. -/
def Op.isOpenOp : Op → Bool
  | Op.close => false
  | _ => true

/-- An operation allowed after `Close`: creating readers and reading. -/
def Op.isClosedOp : Op → Bool
  | Op.newReader => true
  | Op.read _ _ => true
  | _ => false

/-- What holds of every reader of a buffer `m` and of what it has delivered: the
bytes delivered are the bytes before its cursor, a drained reader has consumed a
closed buffer whole, and `io.EOF` is only reported by a drained reader. A snapshot
reader exists only over a closed buffer and reads that buffer's bytes. -/
def ReaderLog.Ok (m : MultiplexingBuffer) (l : ReaderLog) : Prop :=
  match l.reader with
  | Reader.streaming s =>
    s.idx ≤ m.buffer.length ∧ l.out = m.buffer.take s.idx ∧
    (s.drained = true → m.closed = true ∧ s.idx = m.buffer.length) ∧
    (l.eof = true → s.drained = true)
  | Reader.snapshot b =>
    m.closed = true ∧ b.s = m.buffer ∧ b.i ≤ m.buffer.length ∧ l.out = m.buffer.take b.i ∧
    (l.eof = true → b.i = m.buffer.length)

/-- How many reads with a non-empty destination a reader of a closed buffer can
still need before it has reported `io.EOF`. -/
def ReaderLog.fuel (m : MultiplexingBuffer) (l : ReaderLog) : Nat :=
  match l.reader with
  | Reader.streaming s =>
    (m.buffer.length - s.idx) + (if s.drained then 0 else 1) + (if l.eof then 0 else 1)
  | Reader.snapshot b => (m.buffer.length - b.i) + (if l.eof then 0 else 1)

/-- Every reader of the system satisfies `ReaderLog.Ok`. -/
def Sys.Inv (s : Sys) : Prop := ∀ l ∈ s.readers, l.Ok s.m

/-! ## The host

Everything the code asks of the operating system is a `HostCall`. A `Host` answers a
call given the calls made before it; the calls made so far, in order, are the
`World`. "Every outcome of the host operations" is every `Host`. -/

/-- A Go `error`, by its message. -/
abbrev GoError := String

/-- One entry of `syscall.SysProcAttr.UidMappings` / `GidMappings`. -/
structure SysProcIDMap where
  ContainerID : Int
  HostID : Int
  Size : Int
  deriving DecidableEq, Repr

/-- The fields of `syscall.SysProcAttr` that `StartJob` sets. -/
structure SysProcAttr where
  Cloneflags : List String
  UidMappings : List SysProcIDMap
  GidMappings : List SysProcIDMap
  deriving DecidableEq, Repr

/-- The calls into the host made by the library. -/
inductive HostCall where
  | ReadFile (path : String)
  | WriteFile (path : String) (data : String) (perm : String)
  | Mkdir (path : String) (perm : Nat)
  | Rmdir (path : String)
  | Mount (source target fstype : String) (flags : Nat) (data : String)
  | Unmount (target : String) (flags : Nat)
  | Output (name : String) (args : List String)
  | Getuid
  | Getgid
  | Start (name : String) (args : List String) (attr : SysProcAttr)
  | Wait (pid : Int)
  | Signal (pid : Int) (sig : String)
  | Kill (pid : Int)
  deriving DecidableEq, Repr

/-- The answer of the host to a call: the error (`none` is `nil`), the bytes read or
printed, the number returned (a pid, uid or gid), and for `Wait` what
`ProcessState.Success()` reports afterwards. -/
structure HostReply where
  err : Option GoError
  data : String
  num : Int
  success : Bool
  deriving DecidableEq, Repr

/-- The calls made so far, oldest first. -/
abbrev World := List HostCall

/-- A host: its answer to a call, given the calls made before. -/
abbrev Host := World → HostCall → HostReply

/-- Performing a call: the host's answer and the extended record of calls. -/
def Host.call (h : Host) (w : World) (c : HostCall) : HostReply × World :=
  (h w c, w ++ [c])

/-- A reply without error. -/
def HostReply.ok : HostReply := ⟨none, "", 0, false⟩

/-- A reply with the error `e`. -/
def HostReply.fail (e : GoError) : HostReply := ⟨some e, "", 0, false⟩

/-! ## `internal/commands.go` -/

/-- Modelled from the spec: the status constant `RUNNING` of package `internal` is
declared in a file that is not under `src/`; the spec names the four status tokens
and the doc comment of `executor.Command` gives their values. -/
def RUNNING : String := "running"

/-- Modelled from the spec: the status constant `FINISHED`, declared outside `src/`. -/
def FINISHED : String := "finished"

/-- Modelled from the spec: the status constant `ABORTED`, declared outside `src/`. -/
def ABORTED : String := "aborted"

/-- Modelled from the spec: the status constant `FAILED`, declared outside `src/`;
`FailedCommand.Status` is documented to return "failed". -/
def FAILED : String := "failed"

/-- What the code uses of an `*exec.Cmd`: the command line and, once started,
`Process.Pid`. -/
structure Cmd where
  Path : String
  Args : List String
  Pid : Int
  deriving DecidableEq, Repr

/-- The struct `StartedCommand`. The closure `AfterDone` acts on the host, as the one
that `StartJob` installs does. -/
structure StartedCommand where
  Cmd : Cmd
  CmdStatus : String
  OutputBuffer : MultiplexingBuffer
  AfterDone : Host → World → World

/-- The struct `FailedCommand`. -/
structure FailedCommand where
  deriving DecidableEq, Repr

/-- The method `(c *StartedCommand) Output() io.Reader`. -/
def StartedCommand.Output (c : StartedCommand) : Reader :=
  c.OutputBuffer.Reader

/-- The method `(c *StartedCommand) Stop() error`: `Cmd.Process.Signal(syscall.SIGTERM)`. -/
def StartedCommand.Stop (h : Host) (c : StartedCommand) (w : World) : Option GoError × World :=
  let (r, w) := h.call w (HostCall.Signal c.Cmd.Pid "SIGTERM")
  match r.err with
  | some err => (some err, w)
  | none => (none, w)

/-- The method `(c *StartedCommand) ForceStop() error`: `Cmd.Process.Kill()`. -/
def StartedCommand.ForceStop (h : Host) (c : StartedCommand) (w : World) :
    Option GoError × World :=
  let (r, w) := h.call w (HostCall.Kill c.Cmd.Pid)
  match r.err with
  | some err => (some err, w)
  | none => (none, w)

/-- The method `(c *StartedCommand) Status() string`. -/
def StartedCommand.Status (c : StartedCommand) : String :=
  c.CmdStatus

/-- The method `(c *StartedCommand) WaitForStatus()`. The handle is taken as it is
when `Cmd.Wait()` returns, the child's output having been copied to `OutputBuffer`. -/
def StartedCommand.WaitForStatus (h : Host) (c : StartedCommand) (w : World) :
    StartedCommand × World :=
  let (r, w) := h.call w (HostCall.Wait c.Cmd.Pid)
  let c := { c with OutputBuffer := c.OutputBuffer.Close.1 }
  let w := c.AfterDone h w
  match r.err with
  | some _ => ({ c with CmdStatus := ABORTED }, w)
  | none =>
    if r.success then ({ c with CmdStatus := FINISHED }, w)
    else ({ c with CmdStatus := ABORTED }, w)

/-- The method `(f FailedCommand) Output() io.Reader`: always `nil`. -/
def FailedCommand.Output (_f : FailedCommand) : Option Reader := none

/-- The method `(f FailedCommand) Stop() error`. -/
def FailedCommand.Stop (_f : FailedCommand) : Option GoError := none

/-- The method `(f FailedCommand) ForceStop() error`. -/
def FailedCommand.ForceStop (_f : FailedCommand) : Option GoError := none

/-- The method `(f FailedCommand) WaitForStatus()`. -/
def FailedCommand.WaitForStatus (f : FailedCommand) : FailedCommand := f

/-- The method `(f FailedCommand) Status() string`. -/
def FailedCommand.Status (_f : FailedCommand) : String := FAILED

/-! ### `pkg/executor/command.go`: the interface `Command` -/

/-- The implementations of the interface `executor.Command`. -/
inductive Command where
  | started (c : StartedCommand)
  | failed (f : FailedCommand)

/-- Dispatch of `Stop`. -/
def Command.Stop (h : Host) : Command → World → Command × Option GoError × World
  | Command.started c, w => (Command.started c, (c.Stop h w).1, (c.Stop h w).2)
  | Command.failed f, w => (Command.failed f, f.Stop, w)

/-- Dispatch of `ForceStop`. -/
def Command.ForceStop (h : Host) : Command → World → Command × Option GoError × World
  | Command.started c, w => (Command.started c, (c.ForceStop h w).1, (c.ForceStop h w).2)
  | Command.failed f, w => (Command.failed f, f.ForceStop, w)

/-- Dispatch of `WaitForStatus`. -/
def Command.WaitForStatus (h : Host) : Command → World → Command × World
  | Command.started c, w => (Command.started (c.WaitForStatus h w).1, (c.WaitForStatus h w).2)
  | Command.failed f, w => (Command.failed f.WaitForStatus, w)

/-- Dispatch of `Status`. -/
def Command.Status : Command → String
  | Command.started c => c.Status
  | Command.failed f => f.Status

/-- Dispatch of `Output`; `none` is the nil reader. -/
def Command.Output : Command → Option Reader
  | Command.started c => some c.Output
  | Command.failed f => f.Output

/-- The operations of a handle. -/
inductive HandleOp where
  | Stop
  | ForceStop
  | WaitForStatus
  | Status
  | Output
  deriving DecidableEq, Repr

/-- The handle and the host after one operation of the handle (what the operation
returns is dropped). -/
def Command.apply (h : Host) (c : Command) (w : World) : HandleOp → Command × World
  | HandleOp.Stop => ((c.Stop h w).1, (c.Stop h w).2.2)
  | HandleOp.ForceStop => ((c.ForceStop h w).1, (c.ForceStop h w).2.2)
  | HandleOp.WaitForStatus => c.WaitForStatus h w
  | HandleOp.Status => (c, w)
  | HandleOp.Output => (c, w)

/-- A terminal status. -/
def terminal (s : String) : Prop := s = FINISHED ∨ s = ABORTED ∨ s = FAILED

instance (s : String) : Decidable (terminal s) := by
  unfold terminal
  infer_instance

/-! ## `pkg/executor/executor.go` -/

/-! ### Library functions used by the executor -/

/-- Go's `int` and `int64` arithmetic wraps around in 64 bits (two's complement). -/
def wrapInt64 (x : Int) : Int := (x + 2 ^ 63) % 2 ^ 64 - 2 ^ 63

/-- The decimal rendering of an integer: `strconv.FormatInt(x, 10)`, `strconv.Itoa`
and the verb `%d` of package `fmt`. -/
def formatInt : Int → String
  | Int.ofNat n => Nat.repr n
  | Int.negSucc n => "-" ++ Nat.repr (n + 1)

/-- Whether `t` starts with `sub`. -/
def hasPrefixChars : List Char → List Char → Bool
  | [], _ => true
  | _ :: _, [] => false
  | a :: sub, b :: t => a == b && hasPrefixChars sub t

/-- Whether `sub` occurs in `t` at some position. -/
def containsChars (sub : List Char) : List Char → Bool
  | [] => hasPrefixChars sub []
  | c :: t => hasPrefixChars sub (c :: t) || containsChars sub t

/-- The function `strings.Contains(s, substr)`: `substr` occurs within `s`. -/
def stringsContains (s substr : String) : Bool :=
  containsChars substr.toList s.toList

/-- Splitting at every occurrence of `sep`; `cur` is the piece being read, reversed. -/
def splitChars (sep : Char) : List Char → List Char → List (List Char)
  | [], cur => [cur.reverse]
  | c :: cs, cur =>
    if c = sep then cur.reverse :: splitChars sep cs []
    else splitChars sep cs (c :: cur)

/-- The function `strings.Split(s, sep)` for a one-character separator: the pieces of
`s` between the separators, one more than there are separators. -/
def stringsSplit (s : String) (sep : Char) : List String :=
  (splitChars sep s.toList []).map String.mk

/-- The function `strings.Join(elems, sep)`. -/
def stringsJoin (elems : List String) (sep : String) : String :=
  sep.intercalate elems

/-- The function `filepath.Join(dir, name)` for a directory `dir` without trailing
slash and a plain non-empty name (Go also cleans the joined path). -/
def filepathJoin (dir name : String) : String := dir ++ "/" ++ name

/-- A Go `map[string]string`; a missing key reads as the empty string. -/
abbrev GoMap := String → String

/-- The statement `m[k] = v`. -/
def GoMap.set (m : GoMap) (k v : String) : GoMap := fun key => if key = k then v else m key

/-- The value `make(map[string]string)`. -/
def GoMap.make : GoMap := fun _ => ""

/-- How a Go function ends: it returns, or the runtime panics on an index that is out
of range. -/
inductive Outcome (α : Type) where
  | returned (a : α)
  | indexOutOfRange (index length : Nat)
  deriving DecidableEq, Repr

/-! ### The executor -/

/-- The struct `Executor`. -/
structure Executor where
  cgroupsInfo : GoMap

/-- The struct `Config`. -/
structure Config where
  CpuPercent : Int
  MemoryBytes : Int
  WriteBytePerSec : Int
  ReadBytePerSec : Int
  deriving DecidableEq, Repr

/-- The variable `expectedControllers`. -/
def expectedControllers : List String := ["io", "memory", "cpu"]

/-- The constant `cgroupFolder`. -/
def cgroupFolder : String := "/sys/fs/cgroup"

/-- The constant `defaultCPUPeriod`. -/
def defaultCPUPeriod : Int := 100000

/-- The function `createCgroupsInfoFromConfig`. -/
def createCgroupsInfoFromConfig (config : Config) : GoMap :=
  let result := GoMap.make
  let result := result.set "io"
    ("wbps=" ++ formatInt config.WriteBytePerSec ++ " rbps=" ++ formatInt config.ReadBytePerSec)
  let result := result.set "cpu"
    (formatInt (wrapInt64 (defaultCPUPeriod * config.CpuPercent)) ++ " " ++
      formatInt defaultCPUPeriod)
  let result := result.set "memory" (formatInt config.MemoryBytes)
  let result := result.set "memory_high"
    (formatInt (Int.tdiv (wrapInt64 (config.MemoryBytes * 75)) 100))
  result

/-- The loop of `findMissingSubtreeControllers` over `expectedControllers`. -/
def missingControllers (subtreeControlContentStr : String) :
    List String → List String → List String
  | [], missingSubtreeControllers => missingSubtreeControllers
  | controller :: rest, missingSubtreeControllers =>
    if !stringsContains subtreeControlContentStr controller then
      missingControllers subtreeControlContentStr rest
        (missingSubtreeControllers ++ ["+" ++ controller])
    else missingControllers subtreeControlContentStr rest missingSubtreeControllers

/-- The function `findMissingSubtreeControllers`. -/
def findMissingSubtreeControllers (h : Host) (subtreeControlPath : String) (w : World) :
    (List String × Option GoError) × World :=
  let (r, w) := h.call w (HostCall.ReadFile subtreeControlPath)
  match r.err with
  | some err => (([], some err), w)
  | none => ((missingControllers r.data expectedControllers [], none), w)

/-- The first loop of `ensureCgroupV2Controllers`: the error for the first expected
controller that `strings.Contains` does not find in the content, if any. -/
def checkControllers (contentStr : String) : List String → Option GoError
  | [] => none
  | controller :: rest =>
    if !stringsContains contentStr controller then
      some (controller ++ " controller is not enabled for cgroups v2")
    else checkControllers contentStr rest

/-- The function `ensureCgroupV2Controllers`. -/
def ensureCgroupV2Controllers (h : Host) (w : World) : Option GoError × World :=
  let (r, w) := h.call w (HostCall.ReadFile (filepathJoin cgroupFolder "cgroup.controllers"))
  match r.err with
  | some err => (some ("failed to read cgroup controllers " ++ err), w)
  | none =>
    let contentStr := r.data
    match checkControllers contentStr expectedControllers with
    | some err => (some err, w)
    | none =>
      let subtreeControlPath := filepathJoin cgroupFolder "cgroup.subtree_control"
      let ((missingSubtreeControllers, err), w) :=
        findMissingSubtreeControllers h subtreeControlPath w
      match err with
      | some err => (some ("failed check cgroup subtree controls " ++ err), w)
      | none =>
        let (err, w) :=
          if missingSubtreeControllers.length ≠ 0 then
            let addNewControllers := stringsJoin missingSubtreeControllers " "
            let (r, w) := h.call w
              (HostCall.WriteFile subtreeControlPath addNewControllers "os.ModeAppend")
            (r.err, w)
          else (none, w)
        match err with
        | some err => (some ("failed enable cgroup subtree controls " ++ err), w)
        | none =>
          let ((missingSubtreeControllers, err), w) :=
            findMissingSubtreeControllers h subtreeControlPath w
          match err with
          | some err => (some ("failed check cgroup subtree controls " ++ err), w)
          | none =>
            if missingSubtreeControllers.length ≠ 0 then
              (some ("failed enable cgroup subtree controls, still missing [" ++
                stringsJoin missingSubtreeControllers " " ++ "]"), w)
            else (none, w)

/-- The function `cgroupsV2Mounted`. -/
def cgroupsV2Mounted (h : Host) (w : World) : Bool × World :=
  let (r, w) := h.call w (HostCall.Output "mount" ["-t", "cgroup2"])
  match r.err with
  | some _ => (false, w)
  | none => (r.data.length ≠ 0, w)

/-- The loop of `ensureCgroupsV1IsNotMounted` over the lines of the output. The
expression `strings.Split(line, " ")[2]` panics when the split has fewer than three
elements. -/
def unmountLines (h : Host) : List String → World → Outcome (Option GoError) × World
  | [], w => (Outcome.returned none, w)
  | line :: rest, w =>
    let tokens := stringsSplit line ' '
    match tokens[2]? with
    | none => (Outcome.indexOutOfRange 2 tokens.length, w)
    | some path =>
      let (r, w) := h.call w (HostCall.Unmount path 0)
      match r.err with
      | some err =>
        (Outcome.returned (some ("failed to unmount v1 cgroup at " ++ path ++ ", " ++ err)), w)
      | none => unmountLines h rest w

/-- The function `ensureCgroupsV1IsNotMounted`. -/
def ensureCgroupsV1IsNotMounted (h : Host) (w : World) : Outcome (Option GoError) × World :=
  let (r, w) := h.call w (HostCall.Output "mount" ["-t", "cgroup"])
  match r.err with
  | some err => (Outcome.returned (some ("failed to check v1 cgroups, " ++ err)), w)
  | none =>
    let output := r.data
    if output.length = 0 then (Outcome.returned none, w)
    else unmountLines h (stringsSplit output '\n') w

/-- The function `ensureCgroupsV2Mounted`. -/
def ensureCgroupsV2Mounted (h : Host) (w : World) : Outcome (Option GoError) × World :=
  match ensureCgroupsV1IsNotMounted h w with
  | (Outcome.indexOutOfRange i n, w) => (Outcome.indexOutOfRange i n, w)
  | (Outcome.returned (some err), w) =>
    (Outcome.returned (some ("failed to unmount cgroupv1 " ++ err)), w)
  | (Outcome.returned none, w) =>
    let (mounted, w) := cgroupsV2Mounted h w
    if mounted then (Outcome.returned none, w)
    else
      let (r, w) := h.call w (HostCall.Mount "cgroup2" cgroupFolder "cgroup2" 0 "")
      match r.err with
      | some err => (Outcome.returned (some ("failed to mount cgroupv2 " ++ err)), w)
      | none =>
        let (mounted, w) := cgroupsV2Mounted h w
        if mounted then (Outcome.returned none, w)
        else (Outcome.returned (some "failed to mount cgroups v2"), w)

/-- The function `ensureCgroupsV2`. -/
def ensureCgroupsV2 (h : Host) (w : World) : Outcome (Option GoError) × World :=
  match ensureCgroupsV2Mounted h w with
  | (Outcome.indexOutOfRange i n, w) => (Outcome.indexOutOfRange i n, w)
  | (Outcome.returned (some err), w) => (Outcome.returned (some err), w)
  | (Outcome.returned none, w) =>
    let (err, w) := ensureCgroupV2Controllers h w
    match err with
    | some err => (Outcome.returned (some err), w)
    | none => (Outcome.returned none, w)

/-- The function `InitializeExecutorFromConfig`. -/
def InitializeExecutorFromConfig (h : Host) (config : Config) (w : World) :
    Outcome (Option Executor × Option GoError) × World :=
  if config.CpuPercent = 0 then (Outcome.returned (none, some "invalid cpu percentage"), w)
  else
    match ensureCgroupsV2 h w with
    | (Outcome.indexOutOfRange i n, w) => (Outcome.indexOutOfRange i n, w)
    | (Outcome.returned err, w) =>
      let cgroupInfo := createCgroupsInfoFromConfig config
      match err with
      | some err => (Outcome.returned (none, some err), w)
      | none => (Outcome.returned (some { cgroupsInfo := cgroupInfo }, none), w)

/-- The function `cleanCgroups`; the result of `syscall.Rmdir` is discarded. -/
def cleanCgroups (h : Host) (processId : String) (w : World) : World :=
  let processCgroupFolder := filepathJoin cgroupFolder processId
  (h.call w (HostCall.Rmdir processCgroupFolder)).2

/-- The function `readDisks`. -/
def readDisks (h : Host) (w : World) : (List String × Option GoError) × World :=
  let (r, w) := h.call w (HostCall.Output "lsblk" ["-n", "-d"])
  match r.err with
  | some err => (([], some err), w)
  | none =>
    let outputStr := r.data
    let blkDeviceLines := stringsSplit outputStr '\n'
    ((blkDeviceLines, none), w)

/-- The loop of `createCgroup` over the lines of `lsblk`. -/
def writeIoMax (h : Host) (e : Executor) (processCgroupFolder : String) :
    List String → World → Option GoError × World
  | [], w => (none, w)
  | diskLine :: rest, w =>
    let parsedDiskLine := stringsSplit diskLine '\t'
    if parsedDiskLine.length ≥ 2 then
      let (r, w) := h.call w (HostCall.WriteFile (filepathJoin processCgroupFolder "io.max")
        (parsedDiskLine.getD 1 "" ++ " " ++ e.cgroupsInfo "io") "os.ModeAppend")
      match r.err with
      | some err => (some ("failed to add resouce control " ++ err), w)
      | none => writeIoMax h e processCgroupFolder rest w
    else writeIoMax h e processCgroupFolder rest w

/-- The method `(e Executor) createCgroup(processId string) error`. -/
def Executor.createCgroup (h : Host) (e : Executor) (processId : String) (w : World) :
    Option GoError × World :=
  let processCgroupFolder := filepathJoin cgroupFolder processId
  let (r, w) := h.call w (HostCall.Mkdir processCgroupFolder 0o600)
  match r.err with
  | some err => (some ("failed to create cgroup " ++ err), w)
  | none =>
    let (r, w) := h.call w (HostCall.WriteFile (filepathJoin processCgroupFolder "cpu.max")
      (e.cgroupsInfo "cpu") "os.ModeAppend")
    match r.err with
    | some err => (some ("failed to add resouce control " ++ err), w)
    | none =>
      let (r, w) := h.call w (HostCall.WriteFile (filepathJoin processCgroupFolder "memory.max")
        (e.cgroupsInfo "memory") "os.ModeAppend")
      match r.err with
      | some err => (some ("failed to add resouce control " ++ err), w)
      | none =>
        let (r, w) := h.call w
          (HostCall.WriteFile (filepathJoin processCgroupFolder "memory.high")
            (e.cgroupsInfo "memory_high") "os.ModeAppend")
        match r.err with
        | some err => (some ("failed to add resouce control " ++ err), w)
        | none =>
          let ((diskLines, err), w) := readDisks h w
          match err with
          | some err => (some err, w)
          | none => writeIoMax h e processCgroupFolder diskLines w

/-- The method `(e Executor) addPidToCgroups(processId string, pid int) error`. -/
def Executor.addPidToCgroups (h : Host) (_e : Executor) (processId : String) (pid : Int)
    (w : World) : Option GoError × World :=
  let processCgroupFolder := filepathJoin cgroupFolder processId
  let (r, w) := h.call w (HostCall.WriteFile (filepathJoin processCgroupFolder "cgroup.procs")
    (formatInt pid) "os.ModeAppend")
  match r.err with
  | some err => (some err, w)
  | none => (none, w)

/-- The `SysProcAttr` that `StartJob` gives the child. -/
def startAttr (uid gid : Int) : SysProcAttr :=
  { Cloneflags := ["CLONE_NEWUTS", "CLONE_NEWPID", "CLONE_NEWUSER", "CLONE_NEWNET",
      "CLONE_NEWNS"],
    UidMappings := [{ ContainerID := 0, HostID := uid, Size := 1 }],
    GidMappings := [{ ContainerID := 0, HostID := gid, Size := 1 }] }

/-- The method `(e Executor) StartJob(processId, command string, args []string)
(Command, error)`. -/
def Executor.StartJob (h : Host) (e : Executor) (processId command : String)
    (args : List String) (w : World) : (Option Command × Option GoError) × World :=
  let (err, w) := e.createCgroup h processId w
  match err with
  | some err =>
    let w := cleanCgroups h processId w
    ((none, some err), w)
  | none =>
    let outputBuffer : MultiplexingBuffer := { closed := false, buffer := [] }
    let (uid, w) := h.call w HostCall.Getuid
    let (gid, w) := h.call w HostCall.Getgid
    let (r, w) := h.call w (HostCall.Start command args (startAttr uid.num gid.num))
    match r.err with
    | some _ => ((some (Command.failed {}), none), w)
    | none =>
      let pid := r.num
      let (err, w) := e.addPidToCgroups h processId pid w
      match err with
      | some _ =>
        let (k, w) := h.call w (HostCall.Kill pid)
        match k.err with
        | some killErr =>
          ((none, some ("the process could not be added to cgroup and killed in cleanup " ++
            killErr)), w)
        | none => ((none, some "failed to add process to cgroup %!w(<nil>)"), w)
      | none =>
        let c : StartedCommand :=
          { Cmd := { Path := command, Args := args, Pid := pid },
            CmdStatus := RUNNING,
            OutputBuffer := outputBuffer,
            AfterDone := fun h w => cleanCgroups h processId w }
        ((some (Command.started c), none), w)

/-- The answer of the host to `cmd.Start()` in `StartJob`: the call is made after
those of `createCgroup`, `os.Getuid` and `os.Getgid`. -/
def Executor.startReply (h : Host) (e : Executor) (processId command : String)
    (args : List String) (w : World) : HostReply :=
  let w := (e.createCgroup h processId w).2
  let (uid, w) := h.call w HostCall.Getuid
  let (gid, w) := h.call w HostCall.Getgid
  (h.call w (HostCall.Start command args (startAttr uid.num gid.num))).1

/-! ### Hosts and handles used as concrete inputs -/

/-- The configuration of the tests in `executor_test.go`. -/
def testConfig : Config :=
  { CpuPercent := 10, MemoryBytes := 100000, WriteBytePerSec := 1000, ReadBytePerSec := 1000 }

/-- The executor that `InitializeExecutorFromConfig` builds from `testConfig`. -/
def testExecutor : Executor := { cgroupsInfo := createCgroupsInfoFromConfig testConfig }

/-- A host on which every call succeeds except launching a child. -/
def launchFailHost : Host := fun _ c =>
  match c with
  | HostCall.Start _ _ _ => HostReply.fail "executable file not found in $PATH"
  | _ => HostReply.ok

/-- A host on which the child is launched with pid 42, but writing to a
`cgroup.procs` file fails; every other call succeeds. -/
def attachFailHost : Host := fun _ c =>
  match c with
  | HostCall.Start _ _ _ => ⟨none, "", 42, false⟩
  | HostCall.WriteFile path _ _ =>
    if path = "/sys/fs/cgroup/job1/cgroup.procs" then HostReply.fail "permission denied"
    else HostReply.ok
  | _ => HostReply.ok

/-- A host whose `Wait` fails, as a second `Cmd.Wait()` on the same child does. -/
def waitFailHost : Host := fun _ c =>
  match c with
  | HostCall.Wait _ => HostReply.fail "exec: Wait was already called"
  | _ => HostReply.ok

/-- A host whose child exits with success. -/
def waitSuccessHost : Host := fun _ c =>
  match c with
  | HostCall.Wait _ => ⟨none, "", 0, true⟩
  | _ => HostReply.ok

/-- A started handle of child 42 with the given status, an open buffer holding
`"hi\n"` and the finalizer that `StartJob` installs for job `job1`. -/
def handleWithStatus (status : String) : StartedCommand :=
  { Cmd := { Path := "echo", Args := ["hi"], Pid := 42 },
    CmdStatus := status,
    OutputBuffer := { closed := false, buffer := [104, 105, 10] },
    AfterDone := fun h w => cleanCgroups h "job1" w }

/-- A host without the `cpu` controller: `cgroup.controllers` and
`cgroup.subtree_control` list `cpuset`, `io` and `memory`. -/
def noCpuHost : Host := fun _ c =>
  match c with
  | HostCall.ReadFile _ => ⟨none, "cpuset io memory\n", 0, false⟩
  | _ => HostReply.ok

/-- A host with one cgroup v1 hierarchy mounted, on which every unmount succeeds. -/
def v1MountedHost : Host := fun _ c =>
  match c with
  | HostCall.Output "mount" ["-t", "cgroup"] =>
    ⟨none, "cgroup on /sys/fs/cgroup/cpu type cgroup (rw,nosuid,nodev,noexec,relatime,cpu)\n",
      0, false⟩
  | _ => HostReply.ok

/-! # Theorems -/

/-! ### Facts about `Read` -/

theorem take_succ_set_eq (p : List Byte) (i : Nat) (x : Byte) (h : i < p.length) :
    (p.set i x).take (i + 1) = p.take i ++ [x] := by
  induction p generalizing i with
  | nil => simp at h
  | cons a t ih =>
    cases i with
    | zero => simp
    | succ j =>
      simp only [List.length_cons, Nat.add_lt_add_iff_right] at h
      simp [List.set, ih j h]

theorem take_succ_drop_eq (b : List Byte) (k i : Nat) (h : k + i < b.length) :
    (b.drop k).take (i + 1) = (b.drop k).take i ++ [b.getD (k + i) 0] := by
  rw [List.take_succ]
  congr 1
  rw [List.getElem?_drop, List.getD_eq_getElem?_getD, List.getElem?_eq_getElem h]
  rfl

theorem streamingReader.readLoop_spec (m : MultiplexingBuffer) (s : streamingReader)
    (toRead : Nat) : ∀ (rem i : Nat) (p : List Byte), i + rem = toRead → p.length = toRead →
    s.idx + i ≤ m.buffer.length → p.take i = (m.buffer.drop s.idx).take i →
    (streamingReader.readLoop m s toRead rem i p).n = min toRead (m.buffer.length - s.idx) ∧
    (streamingReader.readLoop m s toRead rem i p).reader.idx =
      s.idx + min toRead (m.buffer.length - s.idx) ∧
    (streamingReader.readLoop m s toRead rem i p).err = none ∧
    (streamingReader.readLoop m s toRead rem i p).p.take (min toRead (m.buffer.length - s.idx)) =
      (m.buffer.drop s.idx).take (min toRead (m.buffer.length - s.idx)) ∧
    (streamingReader.readLoop m s toRead rem i p).reader.drained =
      (if m.buffer.length - s.idx < toRead then (if m.closed then true else s.drained)
       else s.drained) := by
  intro rem
  induction rem with
  | zero =>
    intro i p hi hp hle htake
    have hit : i = toRead := by omega
    subst hit
    have hmin : min i (m.buffer.length - s.idx) = i := by omega
    have hnot : ¬ (m.buffer.length - s.idx < i) := by omega
    simp only [streamingReader.readLoop, hmin, if_neg hnot]
    exact ⟨trivial, trivial, trivial, htake, trivial⟩
  | succ rem ih =>
    intro i p hi hp hle htake
    by_cases hc : i + s.idx ≥ m.buffer.length
    · have hmin : min toRead (m.buffer.length - s.idx) = i := by omega
      have hlt : m.buffer.length - s.idx < toRead := by omega
      simp only [streamingReader.readLoop, if_pos hc, hmin, if_pos hlt]
      exact ⟨trivial, trivial, trivial, htake, trivial⟩
    · simp only [streamingReader.readLoop, if_neg hc]
      apply ih (i + 1) _ (by omega) (by simpa using hp) (by omega)
      rw [take_succ_set_eq p i _ (by omega), take_succ_drop_eq _ _ _ (by omega), htake]

theorem streamingReader.Read_spec (m : MultiplexingBuffer) (s : streamingReader) (p : List Byte)
    (hd : s.drained = false) (hle : s.idx ≤ m.buffer.length) :
    (s.Read m p).n = min p.length (m.buffer.length - s.idx) ∧
    (s.Read m p).reader.idx = s.idx + min p.length (m.buffer.length - s.idx) ∧
    (s.Read m p).err = none ∧
    (s.Read m p).p.take (min p.length (m.buffer.length - s.idx)) =
      (m.buffer.drop s.idx).take (min p.length (m.buffer.length - s.idx)) ∧
    (s.Read m p).reader.drained =
      (if m.buffer.length - s.idx < p.length then m.closed else false) := by
  have h := streamingReader.readLoop_spec m s p.length p.length 0 p (by omega) rfl
    (by omega) (by simp)
  simp only [streamingReader.Read, hd, Bool.false_eq_true, if_false]
  refine ⟨h.1, h.2.1, h.2.2.1, h.2.2.2.1, ?_⟩
  rw [h.2.2.2.2, hd]
  cases m.closed <;> simp

theorem streamingReader.Read_drained (m : MultiplexingBuffer) (s : streamingReader)
    (p : List Byte) (hd : s.drained = true) :
    s.Read m p = ⟨s, p, 0, some IoError.EOF⟩ := by
  simp [streamingReader.Read, hd]

theorem take_add_drop_take (b : List Byte) (i n : Nat) :
    b.take i ++ (b.drop i).take n = b.take (i + n) := by
  rw [List.take_add]

theorem ReaderLog.Ok_read (m : MultiplexingBuffer) (l : ReaderLog) (p : List Byte)
    (h : l.Ok m) : (l.read m p).Ok m := by
  obtain ⟨r, out, eof⟩ := l
  cases r with
  | streaming s =>
    simp only [ReaderLog.Ok] at h
    obtain ⟨hle, hout, hdr, heof⟩ := h
    cases hd : s.drained with
    | true =>
      have hR := streamingReader.Read_drained m s p hd
      simp only [ReaderLog.read, Reader.Read, hR, ReaderLog.Ok, List.take_zero,
        List.append_nil]
      exact ⟨hle, hout, hdr, fun _ => hd⟩
    | false =>
      obtain ⟨hn, hidx, herr, htake, hdrain⟩ := streamingReader.Read_spec m s p hd hle
      simp only [ReaderLog.read, Reader.Read, ReaderLog.Ok, hn, hidx, herr, htake, hdrain]
      refine ⟨by omega, ?_, ?_, ?_⟩
      · rw [hout, take_add_drop_take]
      · intro hx
        split at hx
        · exact ⟨hx, by omega⟩
        · exact absurd hx (by simp)
      · intro hx
        have : eof = true := by simpa using hx
        have := heof this
        simp [hd] at this
  | snapshot b =>
    simp only [ReaderLog.Ok] at h
    obtain ⟨hc, hs, hle, hout, heof⟩ := h
    by_cases hi : b.i ≥ b.s.length
    · have hil : b.i = m.buffer.length := by rw [hs] at hi; omega
      simp only [ReaderLog.read, Reader.Read, bytesReader.Read, if_pos hi, ReaderLog.Ok,
        List.take_zero, List.append_nil]
      exact ⟨hc, hs, hle, hout, fun _ => hil⟩
    · simp only [ReaderLog.read, Reader.Read, bytesReader.Read, if_neg hi, ReaderLog.Ok]
      refine ⟨hc, hs, by rw [hs]; omega, ?_, ?_⟩
      · rw [List.take_append_of_le_length (by simp), List.take_take, Nat.min_self, hout, hs,
          take_add_drop_take]
      · intro hx
        have : eof = true := by simpa using hx
        have := heof this
        rw [hs] at hi
        omega

theorem ReaderLog.fuel_read (m : MultiplexingBuffer) (l : ReaderLog) (p : List Byte)
    (h : l.Ok m) (hc : m.closed = true) (hp : p ≠ []) (he : l.eof = false) :
    (l.read m p).fuel m < l.fuel m := by
  have hpl : 0 < p.length := List.length_pos.mpr hp
  obtain ⟨r, out, eof⟩ := l
  simp only at he
  subst he
  cases r with
  | streaming s =>
    simp only [ReaderLog.Ok] at h
    obtain ⟨hle, -, -, -⟩ := h
    cases hd : s.drained with
    | true =>
      have hR := streamingReader.Read_drained m s p hd
      simp [ReaderLog.read, Reader.Read, hR, ReaderLog.fuel, hd]
    | false =>
      obtain ⟨-, hidx, herr, -, hdrain⟩ := streamingReader.Read_spec m s p hd hle
      simp only [ReaderLog.read, Reader.Read, ReaderLog.fuel, hidx, herr, hdrain, hd, hc]
      by_cases hlt : m.buffer.length - s.idx < p.length
      · simp [hlt]
        omega
      · simp [hlt]
        omega
  | snapshot b =>
    simp only [ReaderLog.Ok] at h
    obtain ⟨-, hs, hle, -, -⟩ := h
    by_cases hi : b.i ≥ b.s.length
    · simp [ReaderLog.read, Reader.Read, bytesReader.Read, if_pos hi, ReaderLog.fuel]
    · simp only [ReaderLog.read, Reader.Read, bytesReader.Read, if_neg hi, ReaderLog.fuel]
      rw [hs] at hi ⊢
      simp
      omega

theorem ReaderLog.eof_read (m : MultiplexingBuffer) (l : ReaderLog) (p : List Byte)
    (he : l.eof = true) : (l.read m p).eof = true := by
  simp [ReaderLog.read, he]

theorem ReaderLog.out_of_eof (m : MultiplexingBuffer) (l : ReaderLog) (h : l.Ok m)
    (he : l.eof = true) : l.out = m.buffer := by
  obtain ⟨r, out, eof⟩ := l
  cases r with
  | streaming s =>
    simp only [ReaderLog.Ok] at h
    obtain ⟨-, hout, hdr, heof⟩ := h
    have := (hdr (heof he)).2
    simp only [hout, this, List.take_length]
  | snapshot b =>
    simp only [ReaderLog.Ok] at h
    obtain ⟨-, -, -, hout, heof⟩ := h
    simp only [hout, heof he, List.take_length]

theorem ReaderLog.fuel_le (m : MultiplexingBuffer) (l : ReaderLog) :
    l.fuel m ≤ m.buffer.length + 2 := by
  obtain ⟨r, out, eof⟩ := l
  cases r with
  | streaming s =>
    simp only [ReaderLog.fuel]
    split <;> split <;> omega
  | snapshot b =>
    simp only [ReaderLog.fuel]
    split <;> omega

/-! ### The buffer with its readers -/

theorem Sys.run_append (s : Sys) (a b : List Op) : s.run (a ++ b) = (s.run a).run b := by
  simp [Sys.run, List.foldl_append]

theorem Sys.run_cons (s : Sys) (op : Op) (ops : List Op) :
    s.run (op :: ops) = (s.step op).run ops := rfl

theorem Sys.Inv_step (s : Sys) (op : Op) (h : s.Inv)
    (hw : ∀ p, op = Op.write p → s.m.closed = false) : (s.step op).Inv := by
  cases op with
  | write p =>
    have hc := hw p rfl
    intro l hl
    have hOk := h l hl
    obtain ⟨r, out, eof⟩ := l
    cases r with
    | streaming x =>
      simp only [ReaderLog.Ok] at hOk
      obtain ⟨hle, hout, hdr, heof⟩ := hOk
      simp only [Sys.step, MultiplexingBuffer.Write, ReaderLog.Ok, List.length_append]
      refine ⟨by omega, ?_, ?_, heof⟩
      · rw [List.take_append_of_le_length hle, hout]
      · intro hx
        have := (hdr hx).1
        rw [hc] at this
        exact absurd this (by simp)
    | snapshot b =>
      simp only [ReaderLog.Ok] at hOk
      rw [hc] at hOk
      exact absurd hOk.1 (by simp)
  | newReader =>
    intro l hl
    simp only [Sys.step, List.mem_append, List.mem_singleton] at hl
    rcases hl with hl | hl
    · exact h l hl
    · subst hl
      cases hc : s.m.closed <;>
        simp [Sys.step, MultiplexingBuffer.Reader, ReaderLog.Ok, hc]
  | read k p =>
    simp only [Sys.step]
    cases hk : s.readers[k]? with
    | none => exact h
    | some l0 =>
      intro l hl
      simp only at hl
      rcases List.mem_or_eq_of_mem_set hl with hl | hl
      · exact h l hl
      · subst hl
        exact ReaderLog.Ok_read s.m l0 p (h l0 (List.getElem?_mem hk))
  | close =>
    intro l hl
    have hOk := h l hl
    obtain ⟨r, out, eof⟩ := l
    cases r with
    | streaming x =>
      simp only [ReaderLog.Ok] at hOk
      obtain ⟨hle, hout, hdr, heof⟩ := hOk
      simp only [Sys.step, MultiplexingBuffer.Close, ReaderLog.Ok]
      exact ⟨hle, hout, fun hx => ⟨trivial, (hdr hx).2⟩, heof⟩
    | snapshot b =>
      simp only [ReaderLog.Ok] at hOk
      obtain ⟨hc, hs, hle, hout, heof⟩ := hOk
      simp only [Sys.step, MultiplexingBuffer.Close, ReaderLog.Ok]
      exact ⟨trivial, hs, hle, hout, heof⟩

/-- While the buffer is open: it stays open, holds the bytes written so far, and
every reader is consistent with it. -/
theorem Sys.run_open (ops : List Op) : ∀ (s : Sys), s.Inv → s.m.closed = false →
    (∀ op ∈ ops, op.isOpenOp = true) →
    (s.run ops).Inv ∧ (s.run ops).m.closed = false ∧
    (s.run ops).m.buffer = s.m.buffer ++ written ops := by
  induction ops with
  | nil => intro s h hc _; simp [Sys.run, written, h, hc]
  | cons op ops ih =>
    intro s h hc hops
    have h1 : (s.step op).Inv := Sys.Inv_step s op h (fun _ _ => hc)
    have hop := hops op (List.mem_cons_self _ _)
    have h2 : (s.step op).m.closed = false := by
      cases op with
      | write p => simpa [Sys.step, MultiplexingBuffer.Write] using hc
      | newReader => simpa [Sys.step] using hc
      | read k p =>
        simp only [Sys.step]
        cases s.readers[k]? <;> simpa using hc
      | close => simp [Op.isOpenOp] at hop
    obtain ⟨i1, i2, i3⟩ := ih (s.step op) h1 h2
      (fun o ho => hops o (List.mem_cons_of_mem _ ho))
    rw [Sys.run_cons]
    refine ⟨i1, i2, ?_⟩
    rw [i3]
    cases op with
    | write p => simp [Sys.step, MultiplexingBuffer.Write, written]
    | newReader => simp [Sys.step, written]
    | read k p =>
      simp only [Sys.step, written]
      cases s.readers[k]? <;> rfl
    | close => simp [Op.isOpenOp] at hop

/-- After `Close`, creating readers and reading leave the buffer as it is, keep
every reader consistent, and never remove a reader. -/
theorem Sys.run_closed (ops : List Op) : ∀ (s : Sys), s.Inv →
    (∀ op ∈ ops, op.isClosedOp = true) →
    (s.run ops).Inv ∧ (s.run ops).m = s.m ∧ s.readers.length ≤ (s.run ops).readers.length := by
  induction ops with
  | nil => intro s h _; exact ⟨h, rfl, le_refl _⟩
  | cons op ops ih =>
    intro s h hops
    have hop := hops op (List.mem_cons_self _ _)
    have h1 : (s.step op).Inv :=
      Sys.Inv_step s op h (fun p hp => by subst hp; simp [Op.isClosedOp] at hop)
    have h2 : (s.step op).m = s.m ∧ s.readers.length ≤ (s.step op).readers.length := by
      cases op with
      | write p => simp [Op.isClosedOp] at hop
      | newReader => simp [Sys.step]
      | read k p =>
        simp only [Sys.step]
        cases s.readers[k]? <;> simp
      | close => simp [Op.isClosedOp] at hop
    obtain ⟨i1, i2, i3⟩ := ih (s.step op) h1 (fun o ho => hops o (List.mem_cons_of_mem _ ho))
    rw [Sys.run_cons]
    exact ⟨i1, i2.trans h2.1, h2.2.trans i3⟩

theorem readsOf_closed (k : Nat) (n : Nat) : ∀ (dests : Nat → List Byte),
    ∀ op ∈ readsOf k dests n, op.isClosedOp = true := by
  induction n with
  | zero => intro dests op h; simp [readsOf] at h
  | succ n ih =>
    intro dests op h
    simp only [readsOf, List.mem_cons] at h
    rcases h with h | h
    · subst h; rfl
    · exact ih _ op h

theorem readsOf_add (k : Nat) (a : Nat) : ∀ (b : Nat) (dests : Nat → List Byte),
    readsOf k dests (a + b) = readsOf k dests a ++ readsOf k (fun j => dests (j + a)) b := by
  induction a with
  | zero => intro b dests; simp [readsOf]
  | succ a ih =>
    intro b dests
    have : a + 1 + b = (a + b) + 1 := by omega
    rw [this]
    simp only [readsOf, List.cons_append, ih]
    congr 2

theorem Sys.step_read_get (s : Sys) (k : Nat) (p : List Byte) (l : ReaderLog)
    (hk : s.readers[k]? = some l) :
    (s.step (Op.read k p)).readers[k]? = some (l.read s.m p) ∧ (s.step (Op.read k p)).m = s.m := by
  have hlt : k < s.readers.length := by
    by_contra hn
    rw [List.getElem?_eq_none (by omega)] at hk
    exact absurd hk (by simp)
  simp [Sys.step, hk, List.getElem?_set, hlt]

/-- A reader of a closed buffer that is read with non-empty destinations reports
`io.EOF` within `fuel` reads. -/
theorem Sys.reads_reach_eof (k : Nat) (n : Nat) : ∀ (s : Sys) (l : ReaderLog)
    (dests : Nat → List Byte), s.Inv → s.m.closed = true → s.readers[k]? = some l →
    l.fuel s.m ≤ n → (∀ j, dests j ≠ []) →
    ∃ N, N ≤ n ∧ ∃ l', (s.run (readsOf k dests N)).readers[k]? = some l' ∧ l'.eof = true := by
  induction n with
  | zero =>
    intro s l dests hinv hc hk hf hd
    refine ⟨0, le_refl _, l, hk, ?_⟩
    by_contra he
    have he' : l.eof = false := by simpa using he
    have := ReaderLog.fuel_read s.m l (dests 0) (hinv l (List.getElem?_mem hk)) hc (hd 0) he'
    omega
  | succ n ih =>
    intro s l dests hinv hc hk hf hd
    cases he : l.eof with
    | true => exact ⟨0, Nat.zero_le _, l, hk, he⟩
    | false =>
      have hOk := hinv l (List.getElem?_mem hk)
      have hlt := ReaderLog.fuel_read s.m l (dests 0) hOk hc (hd 0) he
      obtain ⟨hget, hm⟩ := Sys.step_read_get s k (dests 0) l hk
      have hinv' : (s.step (Op.read k (dests 0))).Inv :=
        Sys.Inv_step s _ hinv (fun p hp => by cases hp)
      obtain ⟨N, hN, l', hl', he'⟩ := ih (s.step (Op.read k (dests 0))) (l.read s.m (dests 0))
        (fun j => dests (j + 1)) hinv' (by rw [hm]; exact hc) hget (by rw [hm]; omega)
        (fun j => hd (j + 1))
      exact ⟨N + 1, by omega, l', by simpa [readsOf, Sys.run_cons] using hl', he'⟩

/-- Once a reader has reported `io.EOF` it keeps that flag under further reads. -/
theorem Sys.reads_keep_eof (k : Nat) (n : Nat) : ∀ (s : Sys) (l : ReaderLog)
    (dests : Nat → List Byte), s.readers[k]? = some l → l.eof = true →
    ∃ l', (s.run (readsOf k dests n)).readers[k]? = some l' ∧ l'.eof = true := by
  induction n with
  | zero => intro s l dests hk he; exact ⟨l, hk, he⟩
  | succ n ih =>
    intro s l dests hk he
    obtain ⟨hget, -⟩ := Sys.step_read_get s k (dests 0) l hk
    obtain ⟨l', hl', he'⟩ := ih (s.step (Op.read k (dests 0))) (l.read s.m (dests 0))
      (fun j => dests (j + 1)) hget (ReaderLog.eof_read _ _ _ he)
    exact ⟨l', by simpa [readsOf, Sys.run_cons] using hl', he'⟩

/-! ### Claims about the output multiplexer -/

/-- C1: on a fresh `MultiplexingBuffer`, let `pre` be any sequence of writes, reader
creations and reads, followed by one `Close`, followed by any sequence `post` of
reader creations and reads. Every reader `k` that exists then, read repeatedly with
non-empty destination slices `dests 0, dests 1, ...`, has reported `io.EOF` after at
most `N` reads for some `N` not larger than the number of written bytes plus two,
and from then on (for every number `M ≥ N` of reads) the bytes it has returned over
its lifetime are exactly the written slices concatenated in write order. Hence any
two readers return the same byte sequence. -/
theorem multiplexer_readers_reach_eof_with_all_written (pre post : List Op)
    (hpre : ∀ op ∈ pre, op.isOpenOp = true) (hpost : ∀ op ∈ post, op.isClosedOp = true)
    (k : Nat) (hk : k < (((Sys.fresh.run pre).step Op.close).run post).readers.length)
    (dests : Nat → List Byte) (hd : ∀ j, dests j ≠ []) :
    ∃ N, N ≤ (written pre).length + 2 ∧ ∀ M, N ≤ M →
      ∃ l, ((((Sys.fresh.run pre).step Op.close).run post).run
              (readsOf k dests M)).readers[k]? = some l ∧
        l.eof = true ∧ l.out = written pre := by
  have hfresh : Sys.fresh.Inv := by intro l hl; simp [Sys.fresh] at hl
  obtain ⟨inv0, -, buf0⟩ := Sys.run_open pre Sys.fresh hfresh rfl hpre
  have buf0' : (Sys.fresh.run pre).m.buffer = written pre := by
    simpa [Sys.fresh] using buf0
  have inv1 : ((Sys.fresh.run pre).step Op.close).Inv :=
    Sys.Inv_step _ _ inv0 (fun p hp => by cases hp)
  have m1 : ((Sys.fresh.run pre).step Op.close).m = ⟨true, written pre⟩ := by
    simp [Sys.step, MultiplexingBuffer.Close, buf0']
  obtain ⟨inv2, m2, -⟩ := Sys.run_closed post _ inv1 hpost
  rw [m1] at m2
  generalize ((Sys.fresh.run pre).step Op.close).run post = s at hk inv2 m2 ⊢
  obtain ⟨l, hl⟩ : ∃ l, s.readers[k]? = some l := ⟨s.readers[k], List.getElem?_eq_getElem hk⟩
  have hfuel : l.fuel s.m ≤ (written pre).length + 2 := by
    have := ReaderLog.fuel_le s.m l
    rw [m2] at this ⊢
    exact this
  obtain ⟨N, hN, l1, hl1, he1⟩ := Sys.reads_reach_eof k _ s l dests inv2 (by rw [m2]) hl
    (le_refl _) hd
  refine ⟨N, hN.trans hfuel, ?_⟩
  intro M hM
  obtain ⟨d, rfl⟩ : ∃ d, M = N + d := ⟨M - N, by omega⟩
  rw [readsOf_add, Sys.run_append]
  obtain ⟨l2, hl2, he2⟩ := Sys.reads_keep_eof k d (s.run (readsOf k dests N)) l1
    (fun j => dests (j + N)) hl1 he1
  obtain ⟨invN, mN, -⟩ := Sys.run_closed (readsOf k dests N) s inv2 (readsOf_closed k N dests)
  obtain ⟨invM, mM, -⟩ := Sys.run_closed (readsOf k (fun j => dests (j + N)) d)
    (s.run (readsOf k dests N)) invN (readsOf_closed k d _)
  refine ⟨l2, hl2, he2, ?_⟩
  have := ReaderLog.out_of_eof _ l2 (invM l2 (List.getElem?_mem hl2)) he2
  rw [this, mM, mN, m2]

/-- C1 at a concrete run: `"ab"` is written, reader 0 is created and reads one byte,
`"c"` is written, the buffer is closed and reader 1 is created; reader 1, read one
byte at a time, ends with `io.EOF` and `"abc"`. -/
theorem multiplexer_readers_reach_eof_with_all_written_witness :
    ∃ N, N ≤ 5 ∧ ∀ M, N ≤ M →
      ∃ l, ((((Sys.fresh.run [Op.write [97, 98], Op.newReader, Op.read 0 [0],
              Op.write [99]]).step Op.close).run [Op.newReader]).run
              (readsOf 1 (fun _ => [0]) M)).readers[1]? = some l ∧
        l.eof = true ∧ l.out = [97, 98, 99] :=
  multiplexer_readers_reach_eof_with_all_written
    [Op.write [97, 98], Op.newReader, Op.read 0 [0], Op.write [99]] [Op.newReader]
    (by decide) (by decide) 1 (by decide) (fun _ => [0]) (by simp)

/-- C8 as stated fails: a live reader is created on an open empty buffer, the
buffer is closed, and the reader (cursor 0 = length of the buffer) is read with a
one-byte destination: `Read` returns 0 bytes and a nil error, not `io.EOF`. -/
theorem read_at_end_of_closed_buffer_is_not_eof :
    (MultiplexingBuffer.mk false []).Reader = Reader.streaming ⟨0, false⟩ ∧
    ((MultiplexingBuffer.mk false []).Close).1 = ⟨true, []⟩ ∧
    (streamingReader.mk 0 false).idx = (MultiplexingBuffer.mk true []).buffer.length ∧
    (streamingReader.Read ⟨true, []⟩ ⟨0, false⟩ [0]).n = 0 ∧
    (streamingReader.Read ⟨true, []⟩ ⟨0, false⟩ [0]).err ≠ some IoError.EOF := by
  decide

/-- C8 (amended): for a live reader whose cursor equals the current length of the
buffer (a drained reader only exists over a closed buffer) and a non-empty
destination slice: if the buffer is closed and the reader is not yet drained, `Read`
returns 0 bytes with a nil error and sets the drained flag, leaving the cursor, and
every `Read` after that returns 0 bytes and `io.EOF`; if the buffer is closed and the
reader is drained, `Read` returns 0 bytes and `io.EOF`; if the buffer is still open,
`Read` returns 0 bytes with a nil error and leaves cursor and drained flag unchanged. -/
theorem read_at_end_of_buffer (m : MultiplexingBuffer) (s : streamingReader) (p : List Byte)
    (hp : p ≠ []) (hidx : s.idx = m.buffer.length)
    (hinv : s.drained = true → m.closed = true) :
    (m.closed = true → s.drained = false →
      (s.Read m p).n = 0 ∧ (s.Read m p).err = none ∧
      (s.Read m p).reader = ⟨s.idx, true⟩ ∧
      ∀ q : List Byte, ((s.Read m p).reader.Read m q).n = 0 ∧
        ((s.Read m p).reader.Read m q).err = some IoError.EOF ∧
        ((s.Read m p).reader.Read m q).reader = (s.Read m p).reader) ∧
    (m.closed = true → s.drained = true →
      (s.Read m p).n = 0 ∧ (s.Read m p).err = some IoError.EOF ∧ (s.Read m p).reader = s) ∧
    (m.closed = false →
      (s.Read m p).n = 0 ∧ (s.Read m p).err = none ∧ (s.Read m p).reader = s) := by
  have hpl : 0 < p.length := List.length_pos.mpr hp
  have hlt : m.buffer.length - s.idx < p.length := by omega
  have hmin : min p.length (m.buffer.length - s.idx) = 0 := by omega
  refine ⟨?_, ?_, ?_⟩
  · intro hc hd
    obtain ⟨hn, hi, herr, -, hdr⟩ := streamingReader.Read_spec m s p hd (by omega)
    rw [hmin] at hn hi
    rw [if_pos hlt, hc] at hdr
    have hr : (s.Read m p).reader = ⟨s.idx, true⟩ := by
      cases hR : (s.Read m p).reader with
      | mk i d =>
        rw [hR] at hi hdr
        simp only at hi hdr
        simp [hi, hdr]
    refine ⟨hn, herr, hr, ?_⟩
    intro q
    rw [hr, streamingReader.Read_drained m ⟨s.idx, true⟩ q rfl]
    exact ⟨rfl, rfl, rfl⟩
  · intro _ hd
    rw [streamingReader.Read_drained m s p hd]
    exact ⟨rfl, rfl, rfl⟩
  · intro hc
    have hd : s.drained = false := by
      cases h : s.drained with
      | false => rfl
      | true => rw [hinv h] at hc; exact absurd hc (by simp)
    obtain ⟨hn, hi, herr, -, hdr⟩ := streamingReader.Read_spec m s p hd (by omega)
    rw [hmin] at hn hi
    rw [if_pos hlt, hc] at hdr
    refine ⟨hn, herr, ?_⟩
    cases hR : (s.Read m p).reader with
    | mk i d =>
      rw [hR] at hi hdr
      simp only at hi hdr
      cases s with
      | mk si sd =>
        simp only at hi hd
        simp [hi, hdr, hd]

/-- C8 (amended) at a concrete reader: buffer `"ab"`, cursor 2, one-byte destination. -/
theorem read_at_end_of_buffer_witness :
    ((streamingReader.mk 2 false).Read ⟨true, [97, 98]⟩ [0]).n = 0 ∧
    ((streamingReader.mk 2 false).Read ⟨true, [97, 98]⟩ [0]).err = none ∧
    ((streamingReader.mk 2 false).Read ⟨true, [97, 98]⟩ [0]).reader = ⟨2, true⟩ ∧
    ((streamingReader.mk 2 false).Read ⟨false, [97, 98]⟩ [0]).n = 0 ∧
    ((streamingReader.mk 2 false).Read ⟨false, [97, 98]⟩ [0]).err = none ∧
    ((streamingReader.mk 2 false).Read ⟨false, [97, 98]⟩ [0]).reader = ⟨2, false⟩ :=
  have h1 := (read_at_end_of_buffer ⟨true, [97, 98]⟩ ⟨2, false⟩ [0] (by decide) rfl
    (fun h => by cases h)).1 rfl rfl
  have h2 := (read_at_end_of_buffer ⟨false, [97, 98]⟩ ⟨2, false⟩ [0] (by decide) rfl
    (fun h => by cases h)).2.2 rfl
  ⟨h1.1, h1.2.1, h1.2.2.1, h2.1, h2.2.1, h2.2.2⟩

/-! ### Claims about job handles -/

/-- C2: for every Started handle (whatever its status, RUNNING in particular), every
host and so every outcome of waiting on the child: after `WaitForStatus` the output
buffer is closed and holds the same bytes, the host is as the finalizer `AfterDone`,
applied once, leaves it after the wait, the status is FINISHED exactly when the wait
returned no error and the process state reports success, it is ABORTED in every
other case, and it is not RUNNING. -/
theorem waitForStatus_closes_finalizes_and_sets_status (h : Host) (c : StartedCommand)
    (w : World) :
    (c.WaitForStatus h w).1.OutputBuffer.closed = true ∧
    (c.WaitForStatus h w).1.OutputBuffer.buffer = c.OutputBuffer.buffer ∧
    (c.WaitForStatus h w).2 = c.AfterDone h (w ++ [HostCall.Wait c.Cmd.Pid]) ∧
    ((c.WaitForStatus h w).1.Status = FINISHED ↔
      ((h w (HostCall.Wait c.Cmd.Pid)).err = none ∧
        (h w (HostCall.Wait c.Cmd.Pid)).success = true)) ∧
    (¬ ((h w (HostCall.Wait c.Cmd.Pid)).err = none ∧
        (h w (HostCall.Wait c.Cmd.Pid)).success = true) →
      (c.WaitForStatus h w).1.Status = ABORTED) ∧
    (c.WaitForStatus h w).1.Status ≠ RUNNING := by
  have hFA : FINISHED ≠ ABORTED := by decide
  have hFR : FINISHED ≠ RUNNING := by decide
  have hAR : ABORTED ≠ RUNNING := by decide
  simp only [StartedCommand.WaitForStatus, Host.call, MultiplexingBuffer.Close,
    StartedCommand.Status]
  cases herr : (h w (HostCall.Wait c.Cmd.Pid)).err with
  | some e =>
    simp only [reduceCtorEq, false_and, iff_false, not_false_eq_true, true_implies]
    exact ⟨trivial, trivial, trivial, fun hx => hFA hx.symm, trivial, hAR⟩
  | none =>
    cases hs : (h w (HostCall.Wait c.Cmd.Pid)).success with
    | true =>
      simp only [if_true, and_self, iff_true, not_true_eq_false, false_implies]
      exact ⟨trivial, trivial, trivial, trivial, trivial, hFR⟩
    | false =>
      simp only [Bool.false_eq_true, if_false, and_false, iff_false, not_false_eq_true,
        true_implies]
      exact ⟨trivial, trivial, trivial, fun hx => hFA hx.symm, trivial, hAR⟩

/-- C3: for every job id, program and argument list, on every host: if per-job cgroup
provisioning succeeds and launching the child fails, `StartJob` returns no error and
a Failed handle: its `Status()` is FAILED, `Stop()` and `ForceStop()` return no error,
`WaitForStatus()` changes neither the host nor the status, and `Output()` is the nil
reader. -/
theorem startJob_launch_failure_returns_failed_handle (h : Host) (e : Executor)
    (processId command : String) (args : List String) (w : World)
    (hcg : (e.createCgroup h processId w).1 = none)
    (hstart : (e.startReply h processId command args w).err ≠ none) :
    ∃ job, (e.StartJob h processId command args w).1 = (some job, none) ∧
      job.Status = FAILED ∧ job.Output = none ∧
      ∀ w1, (job.Stop h w1).2.1 = none ∧ (job.ForceStop h w1).2.1 = none ∧
        (job.WaitForStatus h w1).1.Status = FAILED ∧ (job.WaitForStatus h w1).2 = w1 := by
  refine ⟨Command.failed {}, ?_, rfl, rfl, fun w1 => ⟨rfl, rfl, rfl, rfl⟩⟩
  simp only [Executor.startReply, Host.call] at hstart
  cases hs : (h ((e.createCgroup h processId w).2 ++ [HostCall.Getuid] ++ [HostCall.Getgid])
      (HostCall.Start command args
        (startAttr (h (e.createCgroup h processId w).2 HostCall.Getuid).num
          (h ((e.createCgroup h processId w).2 ++ [HostCall.Getuid]) HostCall.Getgid).num))).err with
  | none => exact absurd hs hstart
  | some err =>
    cases hc : e.createCgroup h processId w with
    | mk err0 w0 =>
      rw [hc] at hcg hs
      simp only at hcg hs
      subst hcg
      simp only [Executor.StartJob, hc, Host.call, hs]

/-- C3 on a host where only the launch fails, for the job of `executor_test.go`. -/
theorem startJob_launch_failure_returns_failed_handle_witness :
    (testExecutor.createCgroup launchFailHost "test" []).1 = none ∧
    (testExecutor.startReply launchFailHost "test" "fake" ["command"] []).err ≠ none ∧
    ∃ job, (testExecutor.StartJob launchFailHost "test" "fake" ["command"] []).1 =
        (some job, none) ∧
      job.Status = FAILED ∧ job.Output = none ∧
      ∀ w1, (job.Stop launchFailHost w1).2.1 = none ∧
        (job.ForceStop launchFailHost w1).2.1 = none ∧
        (job.WaitForStatus launchFailHost w1).1.Status = FAILED ∧
        (job.WaitForStatus launchFailHost w1).2 = w1 :=
  ⟨by decide, by decide,
    startJob_launch_failure_returns_failed_handle launchFailHost testExecutor "test" "fake"
      ["command"] [] (by decide) (by decide)⟩

/-- C5 as stated fails: a Started handle whose status is FINISHED, on which
`WaitForStatus` is called again and the wait reports an error, ends with status
ABORTED. -/
theorem second_wait_turns_finished_into_aborted :
    (handleWithStatus FINISHED).Status = FINISHED ∧
    ((Command.started (handleWithStatus FINISHED)).apply waitFailHost []
      HandleOp.WaitForStatus).1.Status = ABORTED ∧
    ((Command.started (handleWithStatus FINISHED)).apply waitFailHost []
      HandleOp.WaitForStatus).1.Status ≠ (handleWithStatus FINISHED).Status := by
  decide

/-- C5 (amended): for every handle (Started or Failed) whose `Status()` is FINISHED,
ABORTED or FAILED, and every host: `Stop`, `ForceStop`, `Status` and `Output` leave
`Status()` unchanged, and so does `WaitForStatus` on a Failed handle; `WaitForStatus`
on a Started handle sets the status anew from the outcome of the wait, to FINISHED
when the wait returned no error and the process state reports success and to ABORTED
otherwise. After every operation the status is terminal again; it never returns to
RUNNING. -/
theorem terminal_status_after_handle_operation (h : Host) (c : Command) (w : World)
    (op : HandleOp) (ht : terminal c.Status) :
    terminal (c.apply h w op).1.Status ∧ (c.apply h w op).1.Status ≠ RUNNING ∧
    (op ≠ HandleOp.WaitForStatus → (c.apply h w op).1.Status = c.Status) ∧
    (∀ f, c = Command.failed f → (c.apply h w op).1.Status = c.Status) ∧
    (∀ sc, c = Command.started sc → op = HandleOp.WaitForStatus →
      (c.apply h w op).1.Status =
        if (h w (HostCall.Wait sc.Cmd.Pid)).err = none ∧
            (h w (HostCall.Wait sc.Cmd.Pid)).success = true then FINISHED else ABORTED) := by
  have hnr : ∀ s, terminal s → s ≠ RUNNING := by
    intro s hs hr
    subst hr
    rcases hs with hs | hs | hs <;> revert hs <;> decide
  have key : ∀ (c1 : Command), terminal c1.Status ∧
      (op ≠ HandleOp.WaitForStatus → c1.Status = c.Status) ∧
      (∀ f, c = Command.failed f → c1.Status = c.Status) ∧
      (∀ sc, c = Command.started sc → op = HandleOp.WaitForStatus →
        c1.Status =
          if (h w (HostCall.Wait sc.Cmd.Pid)).err = none ∧
              (h w (HostCall.Wait sc.Cmd.Pid)).success = true then FINISHED else ABORTED) →
      terminal c1.Status ∧ c1.Status ≠ RUNNING ∧
      (op ≠ HandleOp.WaitForStatus → c1.Status = c.Status) ∧
      (∀ f, c = Command.failed f → c1.Status = c.Status) ∧
      (∀ sc, c = Command.started sc → op = HandleOp.WaitForStatus →
        c1.Status =
          if (h w (HostCall.Wait sc.Cmd.Pid)).err = none ∧
              (h w (HostCall.Wait sc.Cmd.Pid)).success = true then FINISHED else ABORTED) :=
    fun c1 hx => ⟨hx.1, hnr _ hx.1, hx.2⟩
  apply key
  cases c with
  | failed f =>
    cases op <;>
      exact ⟨ht, fun _ => rfl, fun _ _ => rfl, fun sc hsc => (by cases hsc)⟩
  | started sc =>
    cases op with
    | Stop => exact ⟨ht, fun _ => rfl, fun f hf => (by cases hf), fun _ _ ho => (by cases ho)⟩
    | ForceStop => exact ⟨ht, fun _ => rfl, fun f hf => (by cases hf), fun _ _ ho => (by cases ho)⟩
    | Status => exact ⟨ht, fun _ => rfl, fun f hf => (by cases hf), fun _ _ ho => (by cases ho)⟩
    | Output => exact ⟨ht, fun _ => rfl, fun f hf => (by cases hf), fun _ _ ho => (by cases ho)⟩
    | WaitForStatus =>
      have hst : ((Command.started sc).apply h w HandleOp.WaitForStatus).1.Status =
          if (h w (HostCall.Wait sc.Cmd.Pid)).err = none ∧
              (h w (HostCall.Wait sc.Cmd.Pid)).success = true then FINISHED else ABORTED := by
        simp only [Command.apply, Command.WaitForStatus, Command.Status,
          StartedCommand.WaitForStatus, Host.call, StartedCommand.Status]
        cases herr : (h w (HostCall.Wait sc.Cmd.Pid)).err with
        | some e => simp
        | none =>
          cases hs : (h w (HostCall.Wait sc.Cmd.Pid)).success <;> simp
      refine ⟨?_, fun hne => absurd rfl hne, fun f hf => (by cases hf), ?_⟩
      · rw [hst]
        split
        · exact Or.inl rfl
        · exact Or.inr (Or.inl rfl)
      · intro sc1 hsc _
        cases hsc
        exact hst

/-- C5 (amended) at a FINISHED handle whose second wait fails: the status becomes
ABORTED, which is terminal and not RUNNING. -/
theorem terminal_status_after_handle_operation_witness :
    terminal (Command.started (handleWithStatus FINISHED)).Status ∧
    terminal ((Command.started (handleWithStatus FINISHED)).apply waitFailHost []
      HandleOp.WaitForStatus).1.Status ∧
    ((Command.started (handleWithStatus FINISHED)).apply waitFailHost []
      HandleOp.WaitForStatus).1.Status ≠ RUNNING :=
  have ht : terminal (Command.started (handleWithStatus FINISHED)).Status := Or.inl rfl
  have hx := terminal_status_after_handle_operation waitFailHost
    (Command.started (handleWithStatus FINISHED)) [] HandleOp.WaitForStatus ht
  ⟨ht, hx.1, hx.2.1⟩

/-! ### Claims about the executor -/

theorem wrapInt64_of_inRange (x : Int) (h1 : -(2 ^ 63) ≤ x) (h2 : x < 2 ^ 63) :
    wrapInt64 x = x := by
  unfold wrapInt64
  rw [Int.emod_eq_of_lt (by omega) (by omega)]
  omega

/-- What `createCgroupsInfoFromConfig` computes for `cpu.max` when
`0 < CpuPercent < 100`: the quota is `100000 × CpuPercent`, the period `100000`. -/
theorem createCgroupsInfoFromConfig_cpu (config : Config) (h1 : 0 < config.CpuPercent)
    (h2 : config.CpuPercent < 100) :
    createCgroupsInfoFromConfig config "cpu" =
      formatInt (100000 * config.CpuPercent) ++ " " ++ formatInt 100000 := by
  have hw : wrapInt64 (100000 * config.CpuPercent) = 100000 * config.CpuPercent :=
    wrapInt64_of_inRange _ (by omega) (by omega)
  have e1 : ("cpu" = "memory_high") = False := by decide
  have e2 : ("cpu" = "memory") = False := by decide
  simp only [createCgroupsInfoFromConfig, GoMap.set, defaultCPUPeriod, hw, e1, e2, if_false,
    if_true]

/-- C6, the code at `CpuPercent = 10`: `createCgroupsInfoFromConfig` computes the
`cpu.max` value `"1000000 100000"` (quota `10 × 100000`, ten times the period), not
`"10000 100000"` (quota `10 × 1000`, a tenth of the period). -/
theorem cpu_max_at_ten_percent :
    testConfig.CpuPercent = 10 ∧
    createCgroupsInfoFromConfig testConfig "cpu" = "1000000 100000" ∧
    formatInt (testConfig.CpuPercent * 1000) ++ " " ++ formatInt 100000 = "10000 100000" ∧
    createCgroupsInfoFromConfig testConfig "cpu" ≠
      formatInt (testConfig.CpuPercent * 1000) ++ " " ++ formatInt 100000 := by
  decide

/-- What `createCgroupsInfoFromConfig` computes for `memory.max` and `memory.high`
while `MemoryBytes × 75` fits in an `int64`: the decimal renderings of `MemoryBytes`
and of `floor(MemoryBytes × 3 / 4)`. -/
theorem createCgroupsInfoFromConfig_memory (config : Config) (h1 : 0 ≤ config.MemoryBytes)
    (h2 : config.MemoryBytes * 75 < 2 ^ 63) :
    createCgroupsInfoFromConfig config "memory" = formatInt config.MemoryBytes ∧
    createCgroupsInfoFromConfig config "memory_high" =
      formatInt (config.MemoryBytes * 3 / 4) := by
  have hw : wrapInt64 (config.MemoryBytes * 75) = config.MemoryBytes * 75 :=
    wrapInt64_of_inRange _ (by omega) h2
  have hd : Int.tdiv (config.MemoryBytes * 75) 100 = config.MemoryBytes * 3 / 4 := by
    rw [Int.tdiv_eq_ediv (by omega) (by omega)]
    omega
  have e1 : ("memory" = "memory_high") = False := by decide
  simp only [createCgroupsInfoFromConfig, GoMap.set, hw, hd, e1, if_false, if_true, and_self]

/-- C7, the code at `MemoryBytes = 2^62`: `MemoryBytes*75` wraps around to `-2^62`, and
the `memory.high` value is `"-46116860184273879"`, not the rendering
`"3458764513820540928"` of `floor(MemoryBytes × 3 / 4)`; the `memory.max` value is
the rendering of `MemoryBytes`. -/
theorem memory_high_at_two_pow_62 :
    (0 : Int) ≤ 4611686018427387904 ∧ (4611686018427387904 : Int) < 2 ^ 63 ∧
    wrapInt64 (4611686018427387904 * 75) = -4611686018427387904 ∧
    createCgroupsInfoFromConfig ⟨10, 4611686018427387904, 1000, 1000⟩ "memory_high" =
      "-46116860184273879" ∧
    formatInt (4611686018427387904 * 3 / 4) = "3458764513820540928" ∧
    createCgroupsInfoFromConfig ⟨10, 4611686018427387904, 1000, 1000⟩ "memory" =
      "4611686018427387904" := by
  decide

/-- When per-job provisioning fails, `StartJob` attempts to remove the job's
directory as its last call and returns the error. -/
theorem startJob_provisioning_failure_removes_directory (h : Host) (e : Executor)
    (processId command : String) (args : List String) (w : World) (err : GoError)
    (hcg : (e.createCgroup h processId w).1 = some err) :
    (e.StartJob h processId command args w).1 = (none, some err) ∧
    (e.StartJob h processId command args w).2 =
      (e.createCgroup h processId w).2 ++ [HostCall.Rmdir (filepathJoin cgroupFolder processId)] := by
  cases hc : e.createCgroup h processId w with
  | mk err0 w0 =>
    rw [hc] at hcg
    simp only at hcg
    subst hcg
    simp only [Executor.StartJob, hc, cleanCgroups, Host.call, and_self]

/-- C4, the code on a host where attaching the child to `cgroup.procs` fails: after
creating `/sys/fs/cgroup/job1` and writing the limits, `StartJob` launches the child,
fails to attach it, kills it and returns an error; it makes no `Rmdir` call. -/
theorem startJob_attach_failure_leaves_directory :
    (testExecutor.StartJob attachFailHost "job1" "echo" ["hi"] []).1.1.isNone = true ∧
    (testExecutor.StartJob attachFailHost "job1" "echo" ["hi"] []).1.2 =
      some "failed to add process to cgroup %!w(<nil>)" ∧
    (testExecutor.StartJob attachFailHost "job1" "echo" ["hi"] []).2 =
      [HostCall.Mkdir "/sys/fs/cgroup/job1" 0o600,
       HostCall.WriteFile "/sys/fs/cgroup/job1/cpu.max" "1000000 100000" "os.ModeAppend",
       HostCall.WriteFile "/sys/fs/cgroup/job1/memory.max" "100000" "os.ModeAppend",
       HostCall.WriteFile "/sys/fs/cgroup/job1/memory.high" "75000" "os.ModeAppend",
       HostCall.Output "lsblk" ["-n", "-d"],
       HostCall.Getuid, HostCall.Getgid,
       HostCall.Start "echo" ["hi"] (startAttr 0 0),
       HostCall.WriteFile "/sys/fs/cgroup/job1/cgroup.procs" "42" "os.ModeAppend",
       HostCall.Kill 42] ∧
    HostCall.Rmdir "/sys/fs/cgroup/job1" ∉
      (testExecutor.StartJob attachFailHost "job1" "echo" ["hi"] []).2 := by
  decide

/-- C9, the code on a host whose `cgroup.controllers` lists `cpuset`, `io` and
`memory` but not `cpu`: `strings.Contains` finds `cpu` inside `cpuset`, the check of
the controllers passes, `cgroup.subtree_control` is read, and
`ensureCgroupV2Controllers` returns no error. -/
theorem controllers_check_accepts_cpuset_for_cpu :
    (noCpuHost [] (HostCall.ReadFile "/sys/fs/cgroup/cgroup.controllers")).data =
      "cpuset io memory\n" ∧
    stringsSplit "cpuset io memory" ' ' = ["cpuset", "io", "memory"] ∧
    "cpu" ∉ stringsSplit "cpuset io memory" ' ' ∧
    stringsContains "cpuset io memory\n" "cpu" = true ∧
    checkControllers "cpuset io memory\n" expectedControllers = none ∧
    ensureCgroupV2Controllers noCpuHost [] =
      (none, [HostCall.ReadFile "/sys/fs/cgroup/cgroup.controllers",
              HostCall.ReadFile "/sys/fs/cgroup/cgroup.subtree_control",
              HostCall.ReadFile "/sys/fs/cgroup/cgroup.subtree_control"]) := by
  decide

theorem splitChars_snoc_sep (sep : Char) (cs : List Char) :
    ∀ cur, ∃ L, splitChars sep (cs ++ [sep]) cur = L ++ [[]] := by
  induction cs with
  | nil => intro cur; exact ⟨[cur.reverse], by simp [splitChars]⟩
  | cons c cs ih =>
    intro cur
    by_cases hc : c = sep
    · obtain ⟨L, hL⟩ := ih []
      exact ⟨cur.reverse :: L, by simp [splitChars, hc, hL]⟩
    · obtain ⟨L, hL⟩ := ih (c :: cur)
      exact ⟨L, by simp [splitChars, hc, hL]⟩

theorem unmountLines_trailing_empty (h : Host)
    (hu : ∀ w path, (h w (HostCall.Unmount path 0)).err = none) (L : List String) :
    ∀ w, ∃ i n, (unmountLines h (L ++ [""]) w).1 = Outcome.indexOutOfRange i n := by
  induction L with
  | nil => intro w; exact ⟨2, 1, rfl⟩
  | cons line L ih =>
    intro w
    simp only [List.cons_append, unmountLines]
    cases ht : (stringsSplit line ' ')[2]? with
    | none => exact ⟨_, _, rfl⟩
    | some path =>
      simp only [Host.call, hu]
      exact ih _

/-- On every host, whenever `mount -t cgroup` prints something that ends in a newline
and every unmount succeeds, `ensureCgroupsV1IsNotMounted` does not return: it ends in
an index-out-of-range panic. -/
theorem ensureCgroupsV1IsNotMounted_panics (h : Host) (w : World) (cs : List Char)
    (herr : (h w (HostCall.Output "mount" ["-t", "cgroup"])).err = none)
    (hout : (h w (HostCall.Output "mount" ["-t", "cgroup"])).data = String.mk (cs ++ ['\n']))
    (hu : ∀ w path, (h w (HostCall.Unmount path 0)).err = none) :
    ∃ i n, (ensureCgroupsV1IsNotMounted h w).1 = Outcome.indexOutOfRange i n := by
  obtain ⟨L, hL⟩ := splitChars_snoc_sep '\n' cs []
  have hlen : (String.mk (cs ++ ['\n'])).length ≠ 0 := by simp [String.length]
  have htl : (String.mk (cs ++ ['\n'])).toList = cs ++ ['\n'] := rfl
  simp only [ensureCgroupsV1IsNotMounted, Host.call, herr, hout, if_neg hlen, stringsSplit, htl,
    hL, List.map_append, List.map_cons, List.map_nil]
  exact unmountLines_trailing_empty h hu (L.map String.mk) _

/-- C10, the code on a host with one cgroup v1 mount whose unmount succeeds: the
output of `mount -t cgroup` is one newline-terminated line with more than three
tokens; `ensureCgroupsV1IsNotMounted` unmounts the third token of that line and then
indexes element 2 of the one-element split of the empty piece after the last
newline, which is a panic instead of a return. -/
theorem unmount_v1_panics_after_last_line :
    (v1MountedHost [] (HostCall.Output "mount" ["-t", "cgroup"])).data =
      "cgroup on /sys/fs/cgroup/cpu type cgroup (rw,nosuid,nodev,noexec,relatime,cpu)\n" ∧
    stringsSplit
      "cgroup on /sys/fs/cgroup/cpu type cgroup (rw,nosuid,nodev,noexec,relatime,cpu)\n" '\n' =
      ["cgroup on /sys/fs/cgroup/cpu type cgroup (rw,nosuid,nodev,noexec,relatime,cpu)", ""] ∧
    stringsSplit "" ' ' = [""] ∧
    ensureCgroupsV1IsNotMounted v1MountedHost [] =
      (Outcome.indexOutOfRange 2 1,
        [HostCall.Output "mount" ["-t", "cgroup"], HostCall.Unmount "/sys/fs/cgroup/cpu" 0]) := by
  decide

end CuThor
